import Mathlib

/-! Ventoy GRUB module core (`grub-core/ventoy/ventoy.c`).

A shallow embedding of the string matcher, the environment publisher, the
firmware-version reader, the memory enumerator and the platform-mode resolver
of `ventoy.c`, together with theorems about them.

Conventions of the embedding:

* a C string is the list of its bytes before the terminating NUL; reading at
  the cursor yields the head of the remaining list, or `0` at the terminator;
* a `char *` argument is an `Option`: `none` is the null pointer, and reading
  through it is a fault, rendered as the result `none`;
* machine integers are naturals reduced modulo `2 ^ w` where the width matters.
-/

namespace Ventoy

/-! ## C strings -/

/-- Bytes of a C string before its terminating NUL. -/
abbrev CStr := List Nat

/-- Well-formed string contents: every byte is a non-zero 8-bit value. -/
def IsCStr (s : CStr) : Prop := ∀ c ∈ s, 0 < c ∧ c < 256

instance (s : CStr) : Decidable (IsCStr s) := by
  unfold IsCStr; infer_instance

/-- Bytes of an ASCII string literal of the source. -/
def lit (s : String) : CStr := s.data.map Char.toNat

/-- The byte under a cursor, `*p`: the terminator once the contents are used up. -/
def peek (s : CStr) : Nat := s.headD 0

/-- The expression `(int)(grub_uint8_t)*pattern - (int)(grub_uint8_t)*str`. -/
def byteDiff (a b : Nat) : Int := ((a % 256 : Nat) : Int) - ((b % 256 : Nat) : Int)

/-- The wildcard glyph `'*'`. -/
def star : Nat := 42

/-! ## Wildcard matcher -/

/-- Body of `ventoy_strcmp` on two valid pointers: the `while` loop followed by
the `return`. The two arguments are the cursors `pattern` and `str`. -/
def strcmpRun : CStr → CStr → Int
  | p :: ps, c :: cs =>
    -- while (*pattern && *str)
    if p ≠ 0 ∧ c ≠ 0 then
      -- if ((*pattern != *str) && (*pattern != '*')) break;
      if p ≠ c ∧ p ≠ star then byteDiff p c
      -- pattern++; str++;
      else strcmpRun ps cs
    else byteDiff p c
  | ps, cs => byteDiff (peek ps) (peek cs)

/-- Embedding of `ventoy_strcmp`. Neither pointer is checked: `*pattern` is
read by the first loop test and `*str` by the `return` at the latest, so a null
argument is a fault. -/
def ventoy_strcmp (pattern str : Option CStr) : Option Int :=
  match pattern, str with
  | some p, some s => some (strcmpRun p s)
  | _, _ => none

/-- Body of `ventoy_strncmp` on two valid pointers once `n == 0` has been
excluded: the `while` loop followed by the `return`. -/
def strncmpRun : CStr → CStr → Nat → Int
  | p :: ps, c :: cs, n =>
    -- while (*pattern && *str && --n)
    if p ≠ 0 ∧ c ≠ 0 ∧ n - 1 ≠ 0 then
      if p ≠ c ∧ p ≠ star then byteDiff p c
      else strncmpRun ps cs (n - 1)
    else byteDiff p c
  | ps, cs, _ => byteDiff (peek ps) (peek cs)

/-- Embedding of `ventoy_strncmp`: `if (n == 0) return 0;` comes before any
read, after it the pointers are read unchecked as in `ventoy_strcmp`. -/
def ventoy_strncmp (pattern str : Option CStr) (n : Nat) : Option Int :=
  if n = 0 then some 0
  else
    match pattern, str with
    | some p, some s => some (strncmpRun p s n)
    | _, _ => none

/-- Position-wise wildcard agreement of pattern byte `a` with text byte `b`. -/
def wildEq (a b : Nat) : Prop := a = star ∨ a = b

instance (a b : Nat) : Decidable (wildEq a b) := by
  unfold wildEq; infer_instance

/-! ## Formatting -/

/-- Compile-time parameters of one build of the module. -/
structure Target where
  /-- Whether `GRUB_MACHINE_EFI` is defined. -/
  efi : Bool
  /-- The string `GRUB_TARGET_CPU`. -/
  cpu : CStr
  /-- Width in bits of `long` and `unsigned long` (32 on i386, 64 otherwise). -/
  longBits : Nat

/-- ASCII digits of `n` in the given base, most significant first, lowercase. -/
def digitBytes (base n : Nat) : CStr := (Nat.toDigits base n).map Char.toNat

/-- Directive `%llu` (and other unsigned decimals) at the given width. -/
def fmtUnsigned (bits n : Nat) : CStr := digitBytes 10 (n % 2 ^ bits)

/-- Directive `%llx` at the given width. -/
def fmtHex (bits n : Nat) : CStr := digitBytes 16 (n % 2 ^ bits)

/-- Directives `%d` and `%ld`: the argument, given by its bit pattern, is read
as a two's complement integer of the given width. -/
def fmtSigned (bits n : Nat) : CStr :=
  let w := n % 2 ^ bits
  if w < 2 ^ (bits - 1) then digitBytes 10 w else 45 :: digitBytes 10 (2 ^ bits - w)

/-- Directive `%s`: the bytes of the argument up to its terminator. -/
def fmtStr (s : CStr) : CStr := s.takeWhile (fun c => c ≠ 0)

/-- Modelled from the spec: `grub_snprintf` is GRUB library code, not under
src/. The buffers are "fixed-capacity": of the formatted text `out` at most
`size - 1` bytes are stored, followed by the terminator. -/
def grub_snprintf (size : Nat) (out : CStr) : CStr := out.take (size - 1)

/-! ## Environment publisher -/

/-- The external key/value store: the value of each name, if it has one. -/
abbrev Env := CStr → Option CStr

/-- Modelled from the spec: `grub_env_set` is GRUB library code, not under
src/. "Publishing a fact with the same name again overwrites the previous
value"; the other names keep theirs. -/
def grub_env_set (name val : CStr) (env : Env) : Env :=
  fun k => if k = name then some val else env k

/-- Modelled from the spec: `ventoy_env_export` is declared in `ventoy_def.h`
and defined outside src/. `publish_fact(name, value)` performs "a single
overwrite-or-create upsert into the external key/value store". -/
def ventoy_env_export (name val : CStr) (env : Env) : Env := grub_env_set name val env

/-- Embedding of `ventoy_memfile_env_set`, with `char name[128]` and
`char val[64]`. The address `buf` is cast `(ulonglong)(ulong)buf`. -/
def ventoy_memfile_env_set (tgt : Target) (pfx : CStr) (buf len : Nat) (env : Env) : Env :=
  let name1 := grub_snprintf 128 (fmtStr pfx ++ lit "_addr")
  let val1 := grub_snprintf 64 (lit "0x" ++ fmtHex 64 (buf % 2 ^ tgt.longBits))
  let env1 := grub_env_set name1 val1 env
  let name2 := grub_snprintf 128 (fmtStr pfx ++ lit "_size")
  let val2 := grub_snprintf 64 (fmtUnsigned 64 len)
  grub_env_set name2 val2 env1

/-! ## Platform mode resolver -/

/-- The constants `VTOY_PLAT_*` of `ventoy.h` (not under src/), as an enumeration. -/
inductive VtoyPlat where
  | VTOY_PLAT_I386_UEFI
  | VTOY_PLAT_ARM64_UEFI
  | VTOY_PLAT_MIPS_UEFI
  | VTOY_PLAT_X86_64_UEFI
  | VTOY_PLAT_X86_LEGACY
  deriving DecidableEq

/-- The process-wide state written by `ventoy_arch_mode_init`. -/
structure ArchMode where
  g_ventoy_plat_data : VtoyPlat
  g_arch_mode_suffix : CStr
  deriving DecidableEq

/-- Modelled from the spec: `grub_strcmp` is GRUB library code, not under
src/. The decision table compares the CPU family with a literal for equality:
the result is zero exactly on equal strings (every non-zero result is rendered
as 1; the callers here only test for zero). -/
def grub_strcmp (s1 s2 : CStr) : Int := if s1 = s2 then 0 else 1

/-- Embedding of `ventoy_arch_mode_init`. The `#ifdef GRUB_MACHINE_EFI` is the
test of `tgt.efi`; `cap` is `sizeof(g_arch_mode_suffix)`, whose declaration is
not under src/. -/
def ventoy_arch_mode_init (tgt : Target) (cap : Nat) : ArchMode :=
  if tgt.efi then
    if grub_strcmp tgt.cpu (lit "i386") = 0 then
      ⟨VtoyPlat.VTOY_PLAT_I386_UEFI, grub_snprintf cap (fmtStr (lit "ia32"))⟩
    else if grub_strcmp tgt.cpu (lit "arm64") = 0 then
      ⟨VtoyPlat.VTOY_PLAT_ARM64_UEFI, grub_snprintf cap (fmtStr (lit "aa64"))⟩
    else if grub_strcmp tgt.cpu (lit "mips64el") = 0 then
      ⟨VtoyPlat.VTOY_PLAT_MIPS_UEFI, grub_snprintf cap (fmtStr (lit "mips"))⟩
    else
      ⟨VtoyPlat.VTOY_PLAT_X86_64_UEFI, grub_snprintf cap (fmtStr (lit "uefi"))⟩
  else
    ⟨VtoyPlat.VTOY_PLAT_X86_LEGACY, grub_snprintf cap (fmtStr (lit "legacy"))⟩

/-! ## Firmware version reader -/

/-- Embedding of `ventoy_get_uefi_version`: `revision` is
`grub_efi_system_table->hdr.revision`, `len` the capacity of `str`; the result
is the contents of `str`. Both minor parts are `grub_efi_uint8_t`. -/
def ventoy_get_uefi_version (revision len : Nat) : CStr :=
  let uefi_minor_1 := ((revision &&& 0xffff) / 10) % 256
  let uefi_minor_2 := ((revision &&& 0xffff) % 10) % 256
  let str := grub_snprintf len
    (fmtSigned 32 (revision >>> 16) ++ lit "." ++ fmtSigned 32 uefi_minor_1)
  if uefi_minor_2 ≠ 0 then
    grub_snprintf len (fmtStr str ++ lit "." ++ fmtSigned 32 uefi_minor_2)
  else str

/-! ## Memory enumerator -/

/-- One region reported by the firmware memory map. -/
structure Region where
  addr : Nat
  size : Nat
  type : Nat

/-- The constant `VTOY_SIZE_1MB` of `ventoy.h` (not under src/): one megabyte. -/
def VTOY_SIZE_1MB : Nat := 1048576

/-- Embedding of `ventoy_calc_totalmem`: the returned pair is the return value
and the new contents of `*total_mem`, a `grub_uint64_t`. -/
def ventoy_calc_totalmem (addr size type : Nat) (total_mem : Nat) : Int × Nat :=
  let _ := addr
  let _ := type
  (0, (total_mem + size) % 2 ^ 64)

/-- Modelled from the spec: `grub_machine_mmap_iterate` is GRUB library code,
not under src/. It "receives (base address, size, region type) for every
region the firmware reports", in order, until the hook returns non-zero. -/
def grub_machine_mmap_iterate (hook : Nat → Nat → Nat → Nat → Int × Nat) :
    List Region → Nat → Nat
  | [], data => data
  | r :: rs, data =>
    let res := hook r.addr r.size r.type data
    if res.1 ≠ 0 then res.2 else grub_machine_mmap_iterate hook rs res.2

/-- Embedding of `ventoy_hwinfo_init`, with `char str[256]`: `regions` is what
the firmware memory map reports and `revision` the firmware revision field. -/
def ventoy_hwinfo_init (tgt : Target) (regions : List Region) (revision : Nat)
    (env : Env) : Env :=
  let total_mem := grub_machine_mmap_iterate ventoy_calc_totalmem regions 0
  let str := grub_snprintf 256 (fmtSigned tgt.longBits (total_mem / VTOY_SIZE_1MB))
  let env1 := ventoy_env_export (lit "grub_total_ram") str env
  if tgt.efi then
    ventoy_env_export (lit "grub_uefi_version") (ventoy_get_uefi_version revision 256) env1
  else
    ventoy_env_export (lit "grub_uefi_version") (lit "NA") env1

/-! ## String helpers -/

/-- The `for (pos = str; *pos; pos++)` loop of `ventoy_str_last`: the first
list is what lies at and after the cursor, `pos` the offset of the cursor from
`str`, and `last` the value of the variable `last` (`none` is `NULL`). -/
def strLastLoop (ch : Nat) : CStr → Nat → Option Nat → Option Nat
  | [], _, last => last
  | c :: cs, pos, last =>
    if c ≠ 0 then
      -- if (*pos == ch) last = pos;
      strLastLoop ch cs (pos + 1) (if c = ch then some pos else last)
    else last

/-- Embedding of `ventoy_str_last`: the result is the offset from `str` of the
returned pointer, or `none` for `NULL`. -/
def ventoy_str_last (str : Option CStr) (ch : Nat) : Option Nat :=
  match str with
  | none => none
  | some s => strLastLoop ch s 0 none

/-- The `while (*str)` loop of `ventoy_str_all_digit`, run for at most `fuel`
tests of its condition: `none` means the loop is still running. The body has
no `str++`, so the next test reads the same cursor. -/
def allDigitLoop : Nat → CStr → Option Int
  | 0, _ => none
  | fuel + 1, s =>
    if peek s ≠ 0 then
      -- if (*str < '0' || *str > '9') return 0;
      if peek s < 48 ∨ peek s > 57 then some 0
      else allDigitLoop fuel s
    else some 1

/-- Embedding of `ventoy_str_all_digit` with a bound on the loop tests: `none`
means no result within `fuel` tests of the loop condition. -/
def ventoy_str_all_digit (fuel : Nat) (str : Option CStr) : Option Int :=
  match str with
  | none => some 0
  | some s => if peek s = 0 then some 0 else allDigitLoop fuel s

/-! ## Diagnostic output -/

/-- Directive `%02x`: the argument is an `unsigned int`, printed in lowercase
hexadecimal and padded with zeros to at least two digits. -/
def fmtHex02 (n : Nat) : CStr :=
  let d := digitBytes 16 (n % 2 ^ 32)
  List.replicate (2 - d.length) 48 ++ d

/-- Modelled from the spec: `debug` is a macro of `ventoy_def.h`, not under
src/, that hands its format to `ventoy_debug`, which prints it; `tag` is the
fixed text, if any, that the macro puts before the format. -/
def debug (tag text : CStr) : CStr := tag ++ text

/-- Embedding of `ventoy_debug_dump_guid`: the result is the text written to
the terminal. `guid[i]` is byte `i` of the identifier. -/
def ventoy_debug_dump_guid (tag : CStr) (g_ventoy_debug : Int) (pfx : CStr)
    (guid : List Nat) : CStr :=
  if g_ventoy_debug = 0 then []
  else
    debug tag (fmtStr pfx)
      ++ (List.range 16).foldr (fun i out => (fmtHex02 (guid.getD i 0 % 256) ++ lit " ") ++ out) []
      ++ [10]

/-! ## Specification-side notions -/

/-- One lowercase hexadecimal digit as an ASCII byte. -/
def hexDigit (d : Nat) : Nat := if d < 10 then 48 + d else 87 + d

/-- A byte as exactly two lowercase hexadecimal digits. -/
def hex2 (b : Nat) : CStr := [hexDigit (b / 16), hexDigit (b % 16)]

/-- The dump in the words of the specification: the label, the bytes as two
hexadecimal digits each with single spaces between them, and a newline. -/
def spaceSeparatedDump (label guid : CStr) : CStr :=
  label ++ List.intercalate [32] (guid.map hex2) ++ [10]

/-- The argument is null, empty, or begins with a byte outside `'0'..'9'`. -/
def nullEmptyOrNonDigitFirst : Option CStr → Bool
  | none => true
  | some [] => true
  | some (c :: _) => decide (c < 48 ∨ 57 < c)

/-- The scan stops at position `i`: a string has ended there, or the pattern
byte is a literal that differs from the text byte. -/
def isStop (p t : CStr) (i : Nat) : Prop :=
  p.length ≤ i ∨ t.length ≤ i ∨ (p.getD i 0 ≠ star ∧ p.getD i 0 ≠ t.getD i 0)

instance (p t : CStr) (i : Nat) : Decidable (isStop p t i) := by
  unfold isStop; infer_instance

/-- Position `i` is the first one at which the scan stops. -/
def isFirstStop (p t : CStr) (i : Nat) : Prop :=
  (∀ j, j < i → ¬ isStop p t j) ∧ isStop p t i

instance (p t : CStr) (i : Nat) : Decidable (isFirstStop p t i) := by
  unfold isFirstStop; infer_instance

/-- The version text in the words of the specification, for a major part `major`,
a primary minor part `p` and a secondary minor part `s`. -/
def versionText (major p s : Nat) : CStr :=
  if s = 0 then digitBytes 10 major ++ lit "." ++ digitBytes 10 p
  else digitBytes 10 major ++ lit "." ++ digitBytes 10 p ++ lit "." ++ digitBytes 10 s

/-- The sum of the region sizes in a 64-bit unsigned accumulator starting at 0. -/
def totalBytes (regions : List Region) : Nat := (regions.map Region.size).sum % 2 ^ 64

/-- An environment without facts. -/
def emptyEnv : Env := fun _ => none

/-- A 64-bit EFI build. -/
def x64efi : Target := ⟨true, lit "x86_64", 64⟩

/-- The legacy BIOS build, a 32-bit target. -/
def i386pc : Target := ⟨false, lit "i386", 32⟩

/-! ## Wildcard matcher: lemmas -/

theorem byteDiff_eq (a b : Nat) (ha : a < 256) (hb : b < 256) :
    byteDiff a b = (a : Int) - (b : Int) := by
  unfold byteDiff
  rw [Nat.mod_eq_of_lt ha, Nat.mod_eq_of_lt hb]

theorem byteDiff_eq_zero_iff (a b : Nat) (ha : a < 256) (hb : b < 256) :
    byteDiff a b = 0 ↔ a = b := by
  rw [byteDiff_eq a b ha hb]
  omega

theorem IsCStr.tail {c : Nat} {cs : CStr} (h : IsCStr (c :: cs)) : IsCStr cs :=
  fun x hx => h x (List.mem_cons_of_mem _ hx)

theorem IsCStr.head {c : Nat} {cs : CStr} (h : IsCStr (c :: cs)) : 0 < c ∧ c < 256 :=
  h c (List.mem_cons_self _ _)

theorem strcmpRun_nil_left (t : CStr) : strcmpRun [] t = byteDiff 0 (peek t) := by
  cases t <;> rfl

theorem strcmpRun_nil_right (p : CStr) : strcmpRun p [] = byteDiff (peek p) 0 := by
  cases p <;> rfl

theorem strcmpRun_cons (a c : Nat) (ps cs : CStr) (ha : a ≠ 0) (hc : c ≠ 0) :
    strcmpRun (a :: ps) (c :: cs) =
      if a ≠ c ∧ a ≠ star then byteDiff a c else strcmpRun ps cs := by
  simp [strcmpRun, ha, hc]

/-- Agreement at every position of two strings, by head and tail. -/
theorem forall_getD_cons (P : Nat → Nat → Prop) (a c : Nat) (ps cs : CStr) :
    (∀ i, i < (a :: ps).length → P ((a :: ps).getD i 0) ((c :: cs).getD i 0)) ↔
      P a c ∧ ∀ i, i < ps.length → P (ps.getD i 0) (cs.getD i 0) := by
  constructor
  · intro h
    refine ⟨by simpa using h 0 (by simp), fun i hi => ?_⟩
    simpa using h (i + 1) (by simpa using hi)
  · rintro ⟨h0, hs⟩ i hi
    cases i with
    | zero => simpa using h0
    | succ k => simpa using hs k (by simpa using hi)

theorem strcmpRun_eq_zero_iff (p t : CStr) (hp : IsCStr p) (ht : IsCStr t) :
    strcmpRun p t = 0 ↔
      p.length = t.length ∧ ∀ i, i < p.length → wildEq (p.getD i 0) (t.getD i 0) := by
  induction p generalizing t with
  | nil =>
    cases t with
    | nil => simp [strcmpRun, byteDiff, peek]
    | cons c cs =>
      have hc := ht.head
      rw [strcmpRun_nil_left, byteDiff_eq_zero_iff 0 _ (by decide) (by simpa [peek] using hc.2)]
      simp [peek]
      omega
  | cons a ps ih =>
    have ha := hp.head
    cases t with
    | nil =>
      rw [strcmpRun_nil_right, byteDiff_eq_zero_iff _ 0 (by simpa [peek] using ha.2) (by decide)]
      simp [peek]
      omega
    | cons c cs =>
      have hc := ht.head
      rw [strcmpRun_cons a c ps cs (by omega) (by omega), forall_getD_cons]
      by_cases hm : a ≠ c ∧ a ≠ star
      · rw [if_pos hm, byteDiff_eq_zero_iff a c ha.2 hc.2]
        constructor
        · intro h; exact absurd h hm.1
        · rintro ⟨-, hw, -⟩
          rcases hw with hw | hw
          · exact absurd hw hm.2
          · exact absurd hw hm.1
      · rw [if_neg hm, ih cs hp.tail ht.tail]
        have hw : wildEq a c := by
          unfold wildEq
          by_cases h1 : a = c
          · exact Or.inr h1
          · by_cases h2 : a = star
            · exact Or.inl h2
            · exact absurd ⟨h1, h2⟩ hm
        simp [hw]

theorem isStop_zero_of_nil_left (t : CStr) : isStop [] t 0 := Or.inl (Nat.le_refl 0)

theorem isStop_zero_of_nil_right (p : CStr) : isStop p [] 0 := Or.inr (Or.inl (Nat.le_refl 0))

theorem isStop_cons_succ (a c : Nat) (ps cs : CStr) (k : Nat) :
    isStop (a :: ps) (c :: cs) (k + 1) ↔ isStop ps cs k := by
  simp [isStop]

theorem isStop_cons_zero (a c : Nat) (ps cs : CStr) :
    isStop (a :: ps) (c :: cs) 0 ↔ (a ≠ star ∧ a ≠ c) := by
  simp [isStop]

/-- A first stop position is position 0 as soon as the scan stops there. -/
theorem isFirstStop_eq_zero {p t : CStr} {i : Nat} (h : isFirstStop p t i)
    (h0 : isStop p t 0) : i = 0 := by
  by_contra hne
  exact h.1 0 (Nat.pos_of_ne_zero hne) h0

theorem isFirstStop_cons_succ {a c : Nat} {ps cs : CStr} {k : Nat}
    (h : isFirstStop (a :: ps) (c :: cs) (k + 1)) : isFirstStop ps cs k := by
  refine ⟨fun j hj hs => ?_, (isStop_cons_succ a c ps cs k).1 h.2⟩
  exact h.1 (j + 1) (by omega) ((isStop_cons_succ a c ps cs j).2 hs)

theorem exists_isFirstStop (p t : CStr) : ∃ i, isFirstStop p t i := by
  have hex : ∃ i, isStop p t i := ⟨p.length, Or.inl (Nat.le_refl _)⟩
  refine ⟨Nat.find hex, fun j hj => Nat.find_min hex hj, Nat.find_spec hex⟩

theorem peek_lt (s : CStr) (hs : IsCStr s) : peek s < 256 := by
  cases s with
  | nil => simp [peek]
  | cons c cs => simpa [peek] using hs.head.2

theorem peek_eq_getD (s : CStr) : peek s = s.getD 0 0 := by
  cases s <;> rfl

theorem strcmpRun_eq_at_stop (p t : CStr) (hp : IsCStr p) (ht : IsCStr t) (i : Nat)
    (h : isFirstStop p t i) :
    strcmpRun p t = (p.getD i 0 : Int) - (t.getD i 0 : Int) := by
  induction p generalizing t i with
  | nil =>
    obtain rfl := isFirstStop_eq_zero h (isStop_zero_of_nil_left t)
    rw [strcmpRun_nil_left, byteDiff_eq 0 _ (by decide) (peek_lt t ht), peek_eq_getD]
    simp
  | cons a ps ih =>
    have ha := hp.head
    cases t with
    | nil =>
      obtain rfl := isFirstStop_eq_zero h (isStop_zero_of_nil_right _)
      rw [strcmpRun_nil_right, byteDiff_eq _ 0 (peek_lt _ hp) (by decide), peek_eq_getD]
      simp
    | cons c cs =>
      have hc := ht.head
      rw [strcmpRun_cons a c ps cs (by omega) (by omega)]
      by_cases hm : a ≠ c ∧ a ≠ star
      · obtain rfl := isFirstStop_eq_zero h ((isStop_cons_zero a c ps cs).2 ⟨hm.2, hm.1⟩)
        rw [if_pos hm, byteDiff_eq a c ha.2 hc.2]
        simp
      · rw [if_neg hm]
        cases i with
        | zero =>
          exact absurd ((isStop_cons_zero a c ps cs).1 h.2) (fun hh => hm ⟨hh.2, hh.1⟩)
        | succ k =>
          rw [ih cs hp.tail ht.tail k (isFirstStop_cons_succ h)]
          simp

/-! ## Wildcard matcher: claims -/

/-- C1: on well-formed strings `ventoy_strcmp` returns 0 if and only if pattern
and text have the same length and at every position the pattern byte is `'*'`
or equals the text byte; whenever the lengths differ the result is non-zero. -/
theorem ventoy_strcmp_zero_iff (p t : CStr) (hp : IsCStr p) (ht : IsCStr t) :
    (ventoy_strcmp (some p) (some t) = some 0 ↔
      p.length = t.length ∧
        ∀ i, i < p.length → (p.getD i 0 = star ∨ p.getD i 0 = t.getD i 0)) ∧
    (p.length ≠ t.length → ventoy_strcmp (some p) (some t) ≠ some 0) := by
  have key := strcmpRun_eq_zero_iff p t hp ht
  have hiff : ventoy_strcmp (some p) (some t) = some 0 ↔ strcmpRun p t = 0 := by
    simp [ventoy_strcmp]
  refine ⟨hiff.trans key, fun hlen h => hlen ((key.1 (hiff.1 h)).1)⟩

/-- Witness of C1 at pattern "a*c" and text "abc", and at "ab" against "abc". -/
theorem ventoy_strcmp_zero_iff_witness :
    ventoy_strcmp (some (lit "a*c")) (some (lit "abc")) = some 0 ∧
      ventoy_strcmp (some (lit "ab")) (some (lit "abc")) ≠ some 0 :=
  ⟨((ventoy_strcmp_zero_iff (lit "a*c") (lit "abc") (by decide) (by decide)).1).2
      (by decide),
    (ventoy_strcmp_zero_iff (lit "ab") (lit "abc") (by decide) (by decide)).2 (by decide)⟩

/-- C2: on well-formed strings there is a first position at which a string has
ended or the pattern byte is a literal differing from the text byte, and the
result of `ventoy_strcmp` is the byte of the pattern there minus the byte of
the text there, an ended string contributing 0. -/
theorem ventoy_strcmp_diff_at_first_stop (p t : CStr) (hp : IsCStr p) (ht : IsCStr t) :
    (∃ i, isFirstStop p t i) ∧
    ∀ i, isFirstStop p t i →
      ventoy_strcmp (some p) (some t) = some ((p.getD i 0 : Int) - (t.getD i 0 : Int)) := by
  refine ⟨exists_isFirstStop p t, fun i hi => ?_⟩
  simp only [ventoy_strcmp]
  rw [strcmpRun_eq_at_stop p t hp ht i hi]

/-- Witness of C2: "abc" against "abd" stops first at position 2 and gives
`'c' - 'd' = -1`. -/
theorem ventoy_strcmp_diff_at_first_stop_witness :
    isFirstStop (lit "abc") (lit "abd") 2 ∧
      ventoy_strcmp (some (lit "abc")) (some (lit "abd")) = some (-1) :=
  ⟨by decide,
    (ventoy_strcmp_diff_at_first_stop (lit "abc") (lit "abd") (by decide) (by decide)).2 2
      (by decide)⟩

/-- C3 (evaluation at the failing input): with pattern "ab*", text "abc" and
bound 3, `ventoy_strncmp` returns `'*' - 'c' = -57`, while `ventoy_strcmp` on the
first 3 bytes of each returns 0: at position `n - 1` the bounded variant
compares the bytes literally. -/
theorem ventoy_strncmp_last_position_literal :
    ventoy_strncmp (some (lit "ab*")) (some (lit "abc")) 3 = some (-57) ∧
      ventoy_strcmp (some ((lit "ab*").take 3)) (some ((lit "abc").take 3)) = some 0 ∧
      ventoy_strncmp (some (lit "abcdef")) (some (lit "abcxyz")) 3 = some 0 := by
  decide

/-- C4: with bound 0 `ventoy_strncmp` returns 0 for every pattern and text
pointer, null pointers included: neither string is read. -/
theorem ventoy_strncmp_zero_bound (pattern str : Option CStr) :
    ventoy_strncmp pattern str 0 = some 0 := by
  simp [ventoy_strncmp]

/-- C10 (counterexample): with a null text and pattern "a", `ventoy_strcmp`
produces no non-zero result (it reads through the null text), and
`ventoy_strncmp` with bound 0 produces no non-zero result either (it returns 0). -/
theorem null_text_not_rejected :
    (¬ ∃ r : Int, r ≠ 0 ∧ ventoy_strcmp (some (lit "a")) none = some r) ∧
      (¬ ∃ r : Int, r ≠ 0 ∧ ventoy_strncmp (some (lit "a")) none 0 = some r) := by
  constructor
  · rintro ⟨r, -, h⟩
    simp [ventoy_strcmp] at h
  · rintro ⟨r, hr, h⟩
    simp [ventoy_strncmp] at h
    exact hr h.symm

/-- C10 (amended): the matchers check no pointer. On non-null pattern and text
both always return a result; a null text is read through by `ventoy_strcmp`
for every pattern and by `ventoy_strncmp` for every pattern and every bound
of at least 1 (a fault), and with bound 0 `ventoy_strncmp` returns 0 without
reading the text. -/
theorem matcher_null_text_behaviour :
    (∀ p t : CStr, ∃ r, ventoy_strcmp (some p) (some t) = some r) ∧
    (∀ (p t : CStr) (n : Nat), ∃ r, ventoy_strncmp (some p) (some t) n = some r) ∧
    (∀ pattern : Option CStr, ventoy_strcmp pattern none = none) ∧
    (∀ (pattern : Option CStr) (n : Nat), ventoy_strncmp pattern none (n + 1) = none) ∧
    (∀ pattern : Option CStr, ventoy_strncmp pattern none 0 = some 0) := by
  refine ⟨fun p t => ⟨_, rfl⟩, fun p t n => ?_, fun pattern => ?_, fun pattern n => ?_,
    fun pattern => ?_⟩
  · by_cases hn : n = 0
    · exact ⟨0, by simp [ventoy_strncmp, hn]⟩
    · exact ⟨strncmpRun p t n, by simp [ventoy_strncmp, hn]⟩
  · cases pattern <;> rfl
  · cases pattern <;> simp [ventoy_strncmp]
  · simp [ventoy_strncmp]

/-! ## Formatting: lemmas -/

theorem ite_toNat_ne_zero {c : Prop} [Decidable c] {a b : Char} (ha : a.toNat ≠ 0)
    (hb : b.toNat ≠ 0) : (if c then a else b).toNat ≠ 0 := by
  split <;> assumption

theorem digitChar_toNat_ne_zero (k : Nat) : (Nat.digitChar k).toNat ≠ 0 := by
  unfold Nat.digitChar
  repeat refine ite_toNat_ne_zero (by decide) ?_
  decide

theorem toDigitsCore_toNat_ne_zero (b : Nat) :
    ∀ (fuel n : Nat) (acc : List Char), (∀ c ∈ acc, c.toNat ≠ 0) →
      ∀ c ∈ Nat.toDigitsCore b fuel n acc, c.toNat ≠ 0 := by
  intro fuel
  induction fuel with
  | zero => intro n acc hacc; simpa [Nat.toDigitsCore] using hacc
  | succ f ih =>
    intro n acc hacc
    have hcons : ∀ c ∈ Nat.digitChar (n % b) :: acc, c.toNat ≠ 0 := by
      intro c hc
      rcases List.mem_cons.1 hc with rfl | hc
      · exact digitChar_toNat_ne_zero _
      · exact hacc c hc
    simp only [Nat.toDigitsCore]
    split
    · exact hcons
    · exact ih _ _ hcons

theorem digitBytes_ne_zero (b n : Nat) : ∀ c ∈ digitBytes b n, c ≠ 0 := by
  intro c hc
  simp only [digitBytes, List.mem_map] at hc
  obtain ⟨ch, hch, rfl⟩ := hc
  exact toDigitsCore_toNat_ne_zero b _ _ [] (by simp) ch hch

theorem digitBytes_length_le (b : Nat) (hb : 2 ≤ b) (n e : Nat) (he : 0 < e)
    (h : n < b ^ e) : (digitBytes b n).length ≤ e := by
  simp only [digitBytes, List.length_map, Nat.toDigits]
  exact Nat.toDigitsCore_length b hb (n + 1) n e h he

theorem fmtStr_of_no_nul (s : CStr) (h : ∀ c ∈ s, c ≠ 0) : fmtStr s = s := by
  unfold fmtStr
  rw [List.takeWhile_eq_self_iff]
  intro c hc
  simpa using h c hc

theorem grub_snprintf_of_fits (size : Nat) (out : CStr) (h : out.length < size) :
    grub_snprintf size out = out := by
  unfold grub_snprintf
  exact List.take_of_length_le (by omega)

theorem fmtSigned_of_lt (bits n : Nat) (h : n < 2 ^ (bits - 1)) :
    fmtSigned bits n = digitBytes 10 n := by
  have hle : 2 ^ (bits - 1) ≤ 2 ^ bits := Nat.pow_le_pow_right (by decide) (Nat.sub_le _ _)
  have hmod : n % 2 ^ bits = n := Nat.mod_eq_of_lt (lt_of_lt_of_le h hle)
  simp [fmtSigned, hmod, h]

theorem lit_ne_zero_of (s : String) (h : (0 : Nat) ∉ lit s) : ∀ c ∈ lit s, c ≠ 0 := by
  intro c hc hz
  exact h (hz ▸ hc)

/-! ## Firmware version reader: claims -/

/-- C5 (counterexample): for revision 2560 the code produces "0.0", not the
text "0.256" that the quotient `(r & 0xffff) / 10 = 256` would give. -/
theorem uefi_version_minor_not_plain_quotient :
    ventoy_get_uefi_version 2560 256 = lit "0.0" ∧
      versionText (2560 >>> 16) ((2560 &&& 0xffff) / 10) ((2560 &&& 0xffff) % 10)
        = lit "0.256" ∧
      ventoy_get_uefi_version 2560 256 ≠
        versionText (2560 >>> 16) ((2560 &&& 0xffff) / 10) ((2560 &&& 0xffff) % 10) := by
  decide

/-- C5 (amended): for every 32-bit revision `r` and every buffer of at least 12
bytes, `ventoy_get_uefi_version` produces "major.p" when `s = 0` and
"major.p.s" otherwise, in decimal, where `major = r >> 16`,
`p = ((r & 0xffff) / 10) mod 256` (the quotient is held in 8 bits) and
`s = (r & 0xffff) % 10`. -/
theorem ventoy_get_uefi_version_text (r len : Nat) (hr : r < 2 ^ 32) (hlen : 12 ≤ len) :
    ventoy_get_uefi_version r len =
      versionText (r >>> 16) (((r &&& 0xffff) / 10) % 256) ((r &&& 0xffff) % 10) := by
  have hmaj : r >>> 16 < 65536 := by
    rw [Nat.shiftRight_eq_div_pow]
    exact Nat.div_lt_of_lt_mul (by norm_num at hr ⊢; omega)
  have hm1 : ((r &&& 0xffff) / 10) % 256 < 256 := Nat.mod_lt _ (by decide)
  have hm2 : (r &&& 0xffff) % 10 < 10 := Nat.mod_lt _ (by decide)
  have hm2e : ((r &&& 0xffff) % 10) % 256 = (r &&& 0xffff) % 10 :=
    Nat.mod_eq_of_lt (by omega)
  have e1 : fmtSigned 32 (r >>> 16) = digitBytes 10 (r >>> 16) :=
    fmtSigned_of_lt 32 _ (by norm_num; omega)
  have e2 : fmtSigned 32 (((r &&& 0xffff) / 10) % 256)
      = digitBytes 10 (((r &&& 0xffff) / 10) % 256) :=
    fmtSigned_of_lt 32 _ (by norm_num; omega)
  have e3 : fmtSigned 32 ((r &&& 0xffff) % 10) = digitBytes 10 ((r &&& 0xffff) % 10) :=
    fmtSigned_of_lt 32 _ (by norm_num; omega)
  have l1 : (digitBytes 10 (r >>> 16)).length ≤ 5 :=
    digitBytes_length_le 10 (by decide) _ 5 (by decide) (by norm_num; omega)
  have l2 : (digitBytes 10 (((r &&& 0xffff) / 10) % 256)).length ≤ 3 :=
    digitBytes_length_le 10 (by decide) _ 3 (by decide) (by norm_num; omega)
  have l3 : (digitBytes 10 ((r &&& 0xffff) % 10)).length ≤ 1 :=
    digitBytes_length_le 10 (by decide) _ 1 (by decide) (by norm_num; omega)
  have hdot : (lit ".").length = 1 := by decide
  have hstr : grub_snprintf len
      (digitBytes 10 (r >>> 16) ++ lit "." ++ digitBytes 10 (((r &&& 0xffff) / 10) % 256))
        = digitBytes 10 (r >>> 16) ++ lit "." ++ digitBytes 10 (((r &&& 0xffff) / 10) % 256) :=
    grub_snprintf_of_fits _ _ (by simp only [List.length_append, hdot]; omega)
  have hnz : ∀ c ∈ digitBytes 10 (r >>> 16) ++ lit "." ++
      digitBytes 10 (((r &&& 0xffff) / 10) % 256), c ≠ 0 := by
    intro c hc
    simp only [List.mem_append] at hc
    rcases hc with (hc | hc) | hc
    · exact digitBytes_ne_zero _ _ c hc
    · exact lit_ne_zero_of "." (by decide) c hc
    · exact digitBytes_ne_zero _ _ c hc
  unfold ventoy_get_uefi_version versionText
  simp only [hm2e, e1, e2, e3, hstr, fmtStr_of_no_nul _ hnz]
  by_cases hs : (r &&& 0xffff) % 10 = 0
  · simp [hs]
  · rw [if_pos hs, if_neg hs]
    exact grub_snprintf_of_fits _ _ (by simp only [List.length_append, hdot]; omega)

/-- Witness of C5 (amended): revision 0x00020005 in a 256-byte buffer gives
"2.0.5", and revision 0x00020000 gives "2.0". -/
theorem ventoy_get_uefi_version_text_witness :
    ventoy_get_uefi_version 0x00020005 256 = lit "2.0.5" ∧
      ventoy_get_uefi_version 0x00020000 256 = lit "2.0" :=
  ⟨(ventoy_get_uefi_version_text 0x00020005 256 (by decide) (by decide)).trans (by decide),
    (ventoy_get_uefi_version_text 0x00020000 256 (by decide) (by decide)).trans (by decide)⟩

/-! ## Memory enumerator: claims -/

theorem grub_env_set_apply (name val : CStr) (env : Env) (k : CStr) :
    grub_env_set name val env k = if k = name then some val else env k := rfl

theorem mmap_iterate_calc_totalmem (regions : List Region) :
    ∀ data, data < 2 ^ 64 →
      grub_machine_mmap_iterate ventoy_calc_totalmem regions data
        = (data + (regions.map Region.size).sum) % 2 ^ 64 := by
  induction regions with
  | nil =>
    intro data hd
    simp only [grub_machine_mmap_iterate, List.map_nil, List.sum_nil, Nat.add_zero]
    exact (Nat.mod_eq_of_lt hd).symm
  | cons r rs ih =>
    intro data _
    simp only [grub_machine_mmap_iterate, ventoy_calc_totalmem, ne_eq, not_true_eq_false,
      if_false, List.map_cons, List.sum_cons]
    rw [ih _ (Nat.mod_lt _ (by positivity)), Nat.add_mod, Nat.mod_mod, ← Nat.add_mod,
      Nat.add_assoc]

theorem total_mem_eq_totalBytes (regions : List Region) :
    grub_machine_mmap_iterate ventoy_calc_totalmem regions 0 = totalBytes regions := by
  rw [mmap_iterate_calc_totalmem regions 0 (by positivity)]
  simp [totalBytes]

theorem totalBytes_megabytes_lt (regions : List Region) :
    totalBytes regions / VTOY_SIZE_1MB < 2 ^ 44 := by
  have h : totalBytes regions < 2 ^ 64 := Nat.mod_lt _ (by positivity)
  unfold VTOY_SIZE_1MB
  exact Nat.div_lt_of_lt_mul (by norm_num at h ⊢; omega)

/-- C6 (counterexample): on the 32-bit legacy build a single region of `2 ^ 51`
bytes makes `floor(T / 1048576) = 2147483648`, and the published text is
"-2147483648", not the decimal text of that quotient. -/
theorem total_ram_wraps_on_32_bit_long :
    totalBytes [⟨0, 2 ^ 51, 1⟩] / 1048576 = 2147483648 ∧
      ventoy_hwinfo_init i386pc [⟨0, 2 ^ 51, 1⟩] 0 emptyEnv (lit "grub_total_ram")
        = some (lit "-2147483648") ∧
      ventoy_hwinfo_init i386pc [⟨0, 2 ^ 51, 1⟩] 0 emptyEnv (lit "grub_total_ram")
        ≠ some (digitBytes 10 (totalBytes [⟨0, 2 ^ 51, 1⟩] / 1048576)) := by
  decide

/-- C6 (amended): for every region list, `ventoy_hwinfo_init` publishes as
`grub_total_ram` the decimal text of `floor(T / 1048576)`, `T` the sum of the
region sizes modulo `2 ^ 64`, whenever `long` has at least 64 bits or the
quotient is below `2 ^ (w - 1)` for the width `w` of `long`; the text depends
on the sizes only. -/
theorem hwinfo_total_ram (tgt : Target) (regions : List Region) (revision : Nat) (env : Env)
    (hfit : 64 ≤ tgt.longBits ∨ totalBytes regions / 1048576 < 2 ^ (tgt.longBits - 1)) :
    ventoy_hwinfo_init tgt regions revision env (lit "grub_total_ram")
      = some (digitBytes 10 (totalBytes regions / 1048576)) := by
  have hlt := totalBytes_megabytes_lt regions
  unfold VTOY_SIZE_1MB at hlt
  have hfit2 : totalBytes regions / 1048576 < 2 ^ (tgt.longBits - 1) := by
    rcases hfit with h | h
    · have : (2 : Nat) ^ 44 ≤ 2 ^ (tgt.longBits - 1) :=
        Nat.pow_le_pow_right (by decide) (by omega)
      omega
    · exact h
  have hlen : (digitBytes 10 (totalBytes regions / 1048576)).length ≤ 14 :=
    digitBytes_length_le 10 (by decide) _ 14 (by decide) (by norm_num at hlt ⊢; omega)
  have hkey : lit "grub_total_ram" ≠ lit "grub_uefi_version" := by decide
  have hfits := grub_snprintf_of_fits 256 (digitBytes 10 (totalBytes regions / 1048576))
    (by omega)
  unfold ventoy_hwinfo_init
  simp only [total_mem_eq_totalBytes, VTOY_SIZE_1MB, fmtSigned_of_lt _ _ hfit2, hfits,
    ventoy_env_export]
  split <;> simp [grub_env_set_apply, hkey]

/-- Witness of C6 (amended), on the 32-bit legacy build: the regions
(0, 1048576) and (2097152, 2097152) give "3" and the empty list gives "0". -/
theorem hwinfo_total_ram_witness :
    ventoy_hwinfo_init i386pc [⟨0, 1048576, 1⟩, ⟨2097152, 2097152, 2⟩] 0 emptyEnv
        (lit "grub_total_ram") = some (lit "3") ∧
      ventoy_hwinfo_init i386pc [] 0 emptyEnv (lit "grub_total_ram") = some (lit "0") :=
  ⟨(hwinfo_total_ram i386pc [⟨0, 1048576, 1⟩, ⟨2097152, 2097152, 2⟩] 0 emptyEnv
      (Or.inr (by decide))).trans (by decide),
    (hwinfo_total_ram i386pc [] 0 emptyEnv (Or.inr (by decide))).trans (by decide)⟩

/-- C9: running `ventoy_hwinfo_init` a second time over the same regions and
revision leaves the environment as the first run left it, and a run changes no
fact other than `grub_total_ram` and `grub_uefi_version`. -/
theorem hwinfo_init_idempotent (tgt : Target) (regions : List Region) (revision : Nat)
    (env : Env) :
    ventoy_hwinfo_init tgt regions revision (ventoy_hwinfo_init tgt regions revision env)
        = ventoy_hwinfo_init tgt regions revision env ∧
    (∀ k, ventoy_hwinfo_init tgt regions revision env k = env k ∨
      k = lit "grub_total_ram" ∨ k = lit "grub_uefi_version") := by
  constructor
  · funext k
    unfold ventoy_hwinfo_init
    simp only [ventoy_env_export]
    split <;> simp only [grub_env_set_apply] <;> split_ifs <;> rfl
  · intro k
    unfold ventoy_hwinfo_init
    simp only [ventoy_env_export]
    by_cases h1 : k = lit "grub_total_ram"
    · exact Or.inr (Or.inl h1)
    · by_cases h2 : k = lit "grub_uefi_version"
      · exact Or.inr (Or.inr h2)
      · left
        split <;> simp [grub_env_set_apply, h1, h2]

/-! ## Platform mode resolver: claims -/

theorem suffix_stored (cap : Nat) (hcap : 7 ≤ cap) (s : String) (hz : (0 : Nat) ∉ lit s)
    (hl : (lit s).length ≤ 6) : grub_snprintf cap (fmtStr (lit s)) = lit s := by
  rw [fmtStr_of_no_nul _ (lit_ne_zero_of s hz)]
  exact grub_snprintf_of_fits _ _ (by omega)

/-- C7: with a suffix buffer of at least 7 bytes, `ventoy_arch_mode_init` sets
(mode, suffix) to (I386_UEFI, "ia32"), (ARM64_UEFI, "aa64") or
(MIPS64_UEFI, "mips") under EFI for the CPU "i386", "arm64" or "mips64el", to
(X86_64_UEFI, "uefi") for every other CPU under EFI, and to
(X86_LEGACY, "legacy") for every CPU when not EFI. -/
theorem ventoy_arch_mode_init_table (cpu : CStr) (longBits cap : Nat) (hcap : 7 ≤ cap) :
    (cpu = lit "i386" → ventoy_arch_mode_init ⟨true, cpu, longBits⟩ cap
      = ⟨VtoyPlat.VTOY_PLAT_I386_UEFI, lit "ia32"⟩) ∧
    (cpu = lit "arm64" → ventoy_arch_mode_init ⟨true, cpu, longBits⟩ cap
      = ⟨VtoyPlat.VTOY_PLAT_ARM64_UEFI, lit "aa64"⟩) ∧
    (cpu = lit "mips64el" → ventoy_arch_mode_init ⟨true, cpu, longBits⟩ cap
      = ⟨VtoyPlat.VTOY_PLAT_MIPS_UEFI, lit "mips"⟩) ∧
    (cpu ≠ lit "i386" → cpu ≠ lit "arm64" → cpu ≠ lit "mips64el" →
      ventoy_arch_mode_init ⟨true, cpu, longBits⟩ cap
        = ⟨VtoyPlat.VTOY_PLAT_X86_64_UEFI, lit "uefi"⟩) ∧
    ventoy_arch_mode_init ⟨false, cpu, longBits⟩ cap
      = ⟨VtoyPlat.VTOY_PLAT_X86_LEGACY, lit "legacy"⟩ := by
  have s1 := suffix_stored cap hcap "ia32" (by decide) (by decide)
  have s2 := suffix_stored cap hcap "aa64" (by decide) (by decide)
  have s3 := suffix_stored cap hcap "mips" (by decide) (by decide)
  have s4 := suffix_stored cap hcap "uefi" (by decide) (by decide)
  have s5 := suffix_stored cap hcap "legacy" (by decide) (by decide)
  have n12 : lit "arm64" ≠ lit "i386" := by decide
  have n13 : lit "mips64el" ≠ lit "i386" := by decide
  have n23 : lit "mips64el" ≠ lit "arm64" := by decide
  refine ⟨?_, ?_, ?_, ?_, ?_⟩
  · rintro rfl
    simp [ventoy_arch_mode_init, grub_strcmp, s1]
  · rintro rfl
    simp [ventoy_arch_mode_init, grub_strcmp, s2, n12]
  · rintro rfl
    simp [ventoy_arch_mode_init, grub_strcmp, s4, s3, n13, n23]
  · intro h1 h2 h3
    simp [ventoy_arch_mode_init, grub_strcmp, s4, h1, h2, h3]
  · simp [ventoy_arch_mode_init, s5]

/-- Witness of C7 with a 64-byte suffix buffer: "mips64el" under EFI resolves
to (MIPS64_UEFI, "mips"), "x86_64" under EFI to (X86_64_UEFI, "uefi"). -/
theorem ventoy_arch_mode_init_table_witness :
    ventoy_arch_mode_init ⟨true, lit "mips64el", 64⟩ 64
        = ⟨VtoyPlat.VTOY_PLAT_MIPS_UEFI, lit "mips"⟩ ∧
      ventoy_arch_mode_init ⟨true, lit "x86_64", 64⟩ 64
        = ⟨VtoyPlat.VTOY_PLAT_X86_64_UEFI, lit "uefi"⟩ :=
  ⟨(ventoy_arch_mode_init_table (lit "mips64el") 64 64 (by decide)).2.2.1 rfl,
    (ventoy_arch_mode_init_table (lit "x86_64") 64 64 (by decide)).2.2.2.1
      (by decide) (by decide) (by decide)⟩

/-! ## Environment publisher: claims -/

/-- C8 (counterexample): for a 123-byte prefix the name `prefix + "_addr"` does
not fit the 128-byte name buffer, and after the call that name has no value. -/
theorem memfile_env_set_long_name_cut :
    IsCStr (List.replicate 123 97) ∧
      ventoy_memfile_env_set x64efi (List.replicate 123 97) 0x1000 256 emptyEnv
        (List.replicate 123 97 ++ lit "_addr") = none ∧
      ventoy_memfile_env_set x64efi (List.replicate 123 97) 0x1000 256 emptyEnv
        (List.replicate 123 97 ++ lit "_addr") ≠ some (lit "0x1000") := by
  decide

/-- C8 (amended): for every prefix of at most 122 bytes, every address and
every length, after `ventoy_memfile_env_set` the name `prefix + "_addr"` has
the value "0x" followed by the lowercase hexadecimal digits of the address,
the name `prefix + "_size"` has the decimal digits of the length, and every
other name keeps its value. -/
theorem ventoy_memfile_env_set_facts (tgt : Target) (pfx : CStr) (buf len : Nat) (env : Env)
    (hp : IsCStr pfx) (hplen : pfx.length ≤ 122) (hbits : tgt.longBits ≤ 64)
    (hbuf : buf < 2 ^ tgt.longBits) (hlen : len < 2 ^ 64) :
    ventoy_memfile_env_set tgt pfx buf len env (pfx ++ lit "_addr")
        = some (lit "0x" ++ digitBytes 16 buf) ∧
    ventoy_memfile_env_set tgt pfx buf len env (pfx ++ lit "_size")
        = some (digitBytes 10 len) ∧
    ∀ k, k ≠ pfx ++ lit "_addr" → k ≠ pfx ++ lit "_size" →
      ventoy_memfile_env_set tgt pfx buf len env k = env k := by
  have hs : fmtStr pfx = pfx := fmtStr_of_no_nul pfx (fun c hc => by have := hp c hc; omega)
  have ha : (lit "_addr").length = 5 := by decide
  have hz : (lit "_size").length = 5 := by decide
  have hx : (lit "0x").length = 2 := by decide
  have n1 : grub_snprintf 128 (pfx ++ lit "_addr") = pfx ++ lit "_addr" :=
    grub_snprintf_of_fits _ _ (by rw [List.length_append, ha]; omega)
  have n2 : grub_snprintf 128 (pfx ++ lit "_size") = pfx ++ lit "_size" :=
    grub_snprintf_of_fits _ _ (by rw [List.length_append, hz]; omega)
  have hb64 : buf < 2 ^ 64 :=
    lt_of_lt_of_le hbuf (Nat.pow_le_pow_right (by decide) hbits)
  have hhex : fmtHex 64 (buf % 2 ^ tgt.longBits) = digitBytes 16 buf := by
    unfold fmtHex
    rw [Nat.mod_eq_of_lt hbuf, Nat.mod_eq_of_lt hb64]
  have hdec : fmtUnsigned 64 len = digitBytes 10 len := by
    unfold fmtUnsigned
    rw [Nat.mod_eq_of_lt hlen]
  have l1 : (digitBytes 16 buf).length ≤ 16 :=
    digitBytes_length_le 16 (by decide) _ 16 (by decide) (by norm_num at hb64 ⊢; omega)
  have l2 : (digitBytes 10 len).length ≤ 20 :=
    digitBytes_length_le 10 (by decide) _ 20 (by decide) (by norm_num at hlen ⊢; omega)
  have v1 : grub_snprintf 64 (lit "0x" ++ digitBytes 16 buf) = lit "0x" ++ digitBytes 16 buf :=
    grub_snprintf_of_fits _ _ (by rw [List.length_append, hx]; omega)
  have v2 : grub_snprintf 64 (digitBytes 10 len) = digitBytes 10 len :=
    grub_snprintf_of_fits _ _ (by omega)
  have hne : pfx ++ lit "_addr" ≠ pfx ++ lit "_size" := by
    intro h
    exact absurd (List.append_cancel_left h) (by decide)
  unfold ventoy_memfile_env_set
  simp only [hs, n1, n2, hhex, hdec, v1, v2]
  refine ⟨?_, ?_, ?_⟩
  · rw [grub_env_set_apply, if_neg hne, grub_env_set_apply, if_pos rfl]
  · rw [grub_env_set_apply, if_pos rfl]
  · intro k h1 h2
    rw [grub_env_set_apply, if_neg h2, grub_env_set_apply, if_neg h1]

/-- Witness of C8 (amended): prefix "x", address 0x1000 and length 256 give
`x_addr = "0x1000"` and `x_size = "256"`. -/
theorem ventoy_memfile_env_set_facts_witness :
    ventoy_memfile_env_set x64efi (lit "x") 0x1000 256 emptyEnv (lit "x_addr")
        = some (lit "0x1000") ∧
      ventoy_memfile_env_set x64efi (lit "x") 0x1000 256 emptyEnv (lit "x_size")
        = some (lit "256") :=
  ⟨(ventoy_memfile_env_set_facts x64efi (lit "x") 0x1000 256 emptyEnv (by decide) (by decide)
      (by decide) (by decide) (by decide)).1,
    (ventoy_memfile_env_set_facts x64efi (lit "x") 0x1000 256 emptyEnv (by decide) (by decide)
      (by decide) (by decide) (by decide)).2.1⟩

/-! ## String helpers: claims -/

theorem allDigitLoop_of_digit (s : CStr) (h : 48 ≤ peek s ∧ peek s ≤ 57) :
    ∀ fuel, allDigitLoop fuel s = none := by
  intro fuel
  induction fuel with
  | zero => rfl
  | succ f ih =>
    have h1 : peek s ≠ 0 := by omega
    have h2 : ¬ (peek s < 48 ∨ peek s > 57) := by omega
    simp only [allDigitLoop, h1, h2, ne_eq, not_false_eq_true, if_true, if_false]
    exact ih

theorem allDigitLoop_ne_one (s : CStr) (h : peek s ≠ 0) :
    ∀ fuel, allDigitLoop fuel s ≠ some 1 := by
  intro fuel
  induction fuel with
  | zero => simp [allDigitLoop]
  | succ f ih =>
    simp only [allDigitLoop, h, ne_eq, not_false_eq_true, if_true]
    split
    · simp
    · exact ih

/-- C11: for every non-empty string of digits `'0'..'9'` the loop of
`ventoy_str_all_digit` never ends: whatever the number of loop tests allowed,
no result is produced. -/
theorem ventoy_str_all_digit_diverges (s : CStr) (hne : s ≠ [])
    (hd : ∀ c ∈ s, 48 ≤ c ∧ c ≤ 57) :
    ∀ fuel, ventoy_str_all_digit fuel (some s) = none := by
  intro fuel
  cases s with
  | nil => exact absurd rfl hne
  | cons c cs =>
    have hc := hd c (List.mem_cons_self _ _)
    have hp : peek (c :: cs) = c := rfl
    have h0 : peek (c :: cs) ≠ 0 := by rw [hp]; omega
    simp only [ventoy_str_all_digit, h0, if_false]
    exact allDigitLoop_of_digit (c :: cs) (by rw [hp]; exact hc) fuel

/-- Witness of C11: on "2024" no result after 1000 loop tests. -/
theorem ventoy_str_all_digit_diverges_witness :
    ventoy_str_all_digit 1000 (some (lit "2024")) = none :=
  ventoy_str_all_digit_diverges (lit "2024") (by decide) (by decide) 1000

/-- C12: `ventoy_calc_totalmem` returns 0 and leaves `(t + size) mod 2 ^ 64` in
the accumulator, whatever the base address and the region type. -/
theorem ventoy_calc_totalmem_spec (t addr size type : Nat) :
    ventoy_calc_totalmem addr size type t = (0, (t + size) % 2 ^ 64) ∧
    ∀ addr2 type2 : Nat,
      ventoy_calc_totalmem addr2 size type2 t = ventoy_calc_totalmem addr size type t :=
  ⟨rfl, fun _ _ => rfl⟩

/-- C16: `ventoy_str_all_digit` produces a result exactly on the arguments that
are null, empty or begin with a byte outside `'0'..'9'`; on each of them the
result is 0 as soon as one loop test is allowed; no argument gives 1. -/
theorem ventoy_str_all_digit_halts_iff (str : Option CStr) :
    ((∃ fuel r, ventoy_str_all_digit fuel str = some r) ↔
      nullEmptyOrNonDigitFirst str = true) ∧
    (nullEmptyOrNonDigitFirst str = true →
      ∀ fuel, ventoy_str_all_digit (fuel + 1) str = some 0) ∧
    (∀ fuel, ventoy_str_all_digit fuel str ≠ some 1) := by
  cases str with
  | none =>
    refine ⟨⟨fun _ => rfl, fun _ => ⟨0, 0, rfl⟩⟩, fun _ _ => rfl, fun _ => ?_⟩
    simp [ventoy_str_all_digit]
  | some s =>
    cases s with
    | nil =>
      refine ⟨⟨fun _ => rfl, fun _ => ⟨0, 0, rfl⟩⟩, fun _ _ => rfl, fun _ => ?_⟩
      simp [ventoy_str_all_digit, peek]
    | cons c cs =>
      have hp : peek (c :: cs) = c := rfl
      by_cases hz : c = 0
      · subst hz
        refine ⟨⟨fun _ => by simp [nullEmptyOrNonDigitFirst], fun _ => ⟨0, 0, rfl⟩⟩,
          fun _ _ => rfl, fun _ => ?_⟩
        simp [ventoy_str_all_digit, peek]
      · have hrun : ∀ fuel, ventoy_str_all_digit fuel (some (c :: cs))
            = allDigitLoop fuel (c :: cs) := by
          intro fuel
          simp [ventoy_str_all_digit, hp, hz]
        by_cases hd : c < 48 ∨ 57 < c
        · have hgood : nullEmptyOrNonDigitFirst (some (c :: cs)) = true := by
            simp [nullEmptyOrNonDigitFirst, hd]
          have hres : ∀ fuel, ventoy_str_all_digit (fuel + 1) (some (c :: cs)) = some 0 := by
            intro fuel
            rw [hrun]
            have hd2 : peek (c :: cs) < 48 ∨ peek (c :: cs) > 57 := by rw [hp]; omega
            simp [allDigitLoop, hp, hz, hd]
          refine ⟨⟨fun _ => hgood, fun _ => ⟨1, 0, hres 0⟩⟩, fun _ => hres, fun fuel => ?_⟩
          rw [hrun]
          exact allDigitLoop_ne_one _ (by rw [hp]; exact hz) fuel
        · have hbad : nullEmptyOrNonDigitFirst (some (c :: cs)) = false := by
            simp [nullEmptyOrNonDigitFirst, hd]
          have hnone : ∀ fuel, ventoy_str_all_digit fuel (some (c :: cs)) = none := by
            intro fuel
            rw [hrun]
            exact allDigitLoop_of_digit _ (by rw [hp]; omega) fuel
          refine ⟨⟨?_, fun h => ?_⟩, fun h => ?_, fun fuel => ?_⟩
          · rintro ⟨fuel, r, h⟩
            rw [hnone fuel] at h
            exact absurd h (by simp)
          · rw [hbad] at h
            exact absurd h (by simp)
          · rw [hbad] at h
            exact absurd h (by simp)
          · rw [hnone fuel]
            simp

/-- Witness of C16: "x1" begins with a non-digit, and the result is 0 after one
loop test. -/
theorem ventoy_str_all_digit_halts_iff_witness :
    ventoy_str_all_digit 1 (some (lit "x1")) = some 0 :=
  (ventoy_str_all_digit_halts_iff (some (lit "x1"))).2.1 (by decide) 0

theorem getD_mem_of_lt (s : CStr) (j : Nat) (h : j < s.length) : s.getD j 0 ∈ s := by
  rw [List.getD_eq_getElem s 0 h]
  exact List.getElem_mem _

theorem strLastLoop_eq_none_iff (ch : Nat) (s : CStr) (hs : IsCStr s) :
    ∀ (pos : Nat) (last : Option Nat),
      strLastLoop ch s pos last = none ↔ last = none ∧ ch ∉ s := by
  induction s with
  | nil => intro pos last; simp [strLastLoop]
  | cons c cs ih =>
    intro pos last
    have hc : c ≠ 0 := by have := hs.head; omega
    simp only [strLastLoop, hc, ne_eq, not_false_eq_true, if_true]
    rw [ih hs.tail]
    by_cases he : c = ch
    · simp [he]
    · have he2 : ¬ ch = c := fun h => he h.symm
      simp [he, he2]

theorem strLastLoop_eq_some (ch : Nat) (s : CStr) (hs : IsCStr s) :
    ∀ (pos : Nat) (last : Option Nat) (r : Nat), strLastLoop ch s pos last = some r →
      (last = some r ∧ ch ∉ s) ∨
      (pos ≤ r ∧ r - pos < s.length ∧ s.getD (r - pos) 0 = ch ∧
        ∀ j, r - pos < j → j < s.length → s.getD j 0 ≠ ch) := by
  induction s with
  | nil =>
    intro pos last r h
    left
    simpa [strLastLoop] using h
  | cons c cs ih =>
    intro pos last r h
    have hc : c ≠ 0 := by have := hs.head; omega
    simp only [strLastLoop, hc, ne_eq, not_false_eq_true, if_true] at h
    rcases ih hs.tail _ _ _ h with ⟨hl, hnot⟩ | ⟨h1, h2, h3, h4⟩
    · by_cases he : c = ch
      · right
        rw [if_pos he] at hl
        have hr : pos = r := by simpa using hl
        subst hr
        refine ⟨Nat.le_refl _, by simp, by simpa using he, fun j hj hjl => ?_⟩
        obtain ⟨k, rfl⟩ : ∃ k, j = k + 1 := ⟨j - 1, by omega⟩
        rw [List.getD_cons_succ]
        intro hk
        exact hnot (hk ▸ getD_mem_of_lt cs k (by simpa using hjl))
      · left
        rw [if_neg he] at hl
        refine ⟨hl, fun hmem => ?_⟩
        rcases List.mem_cons.1 hmem with h0 | h0
        · exact he h0.symm
        · exact hnot h0
    · right
      have hidx : r - pos = (r - (pos + 1)) + 1 := by omega
      refine ⟨by omega, by rw [hidx]; simpa using h2, by rw [hidx]; simpa using h3,
        fun j hj hjl => ?_⟩
      obtain ⟨k, rfl⟩ : ∃ k, j = k + 1 := ⟨j - 1, by omega⟩
      rw [List.getD_cons_succ]
      exact h4 k (by omega) (by simpa using hjl)

/-- C17: on a well-formed string `ventoy_str_last` returns the position of the
last occurrence of `ch` (the byte there is `ch` and no later position of the
string holds `ch`); it returns null exactly when the string is null or `ch`
does not occur in it, in particular for `ch = 0`. -/
theorem ventoy_str_last_spec (s : CStr) (ch : Nat) (hs : IsCStr s) :
    (∀ i, ventoy_str_last (some s) ch = some i →
      i < s.length ∧ s.getD i 0 = ch ∧ ∀ j, i < j → j < s.length → s.getD j 0 ≠ ch) ∧
    (ventoy_str_last (some s) ch = none ↔ ch ∉ s) ∧
    ventoy_str_last none ch = none ∧
    ventoy_str_last (some s) 0 = none := by
  have hnone : ∀ c, ventoy_str_last (some s) c = none ↔ c ∉ s := by
    intro c
    simp only [ventoy_str_last]
    rw [strLastLoop_eq_none_iff c s hs 0 none]
    simp
  refine ⟨fun i hi => ?_, hnone ch, rfl, (hnone 0).2 (fun h0 => ?_)⟩
  · simp only [ventoy_str_last] at hi
    rcases strLastLoop_eq_some ch s hs 0 none i hi with ⟨hl, -⟩ | ⟨-, h2, h3, h4⟩
    · exact absurd hl (by simp)
    · exact ⟨by simpa using h2, by simpa using h3, by simpa using h4⟩
  · have := hs 0 h0
    omega

/-- Witness of C17: in "a/b/c" the last '/' is at position 3, and a byte that
does not occur gives null. -/
theorem ventoy_str_last_spec_witness :
    (3 < (lit "a/b/c").length ∧ (lit "a/b/c").getD 3 0 = 47 ∧
      ∀ j, 3 < j → j < (lit "a/b/c").length → (lit "a/b/c").getD j 0 ≠ 47) ∧
    ventoy_str_last (some (lit "abc")) 47 = none :=
  ⟨(ventoy_str_last_spec (lit "a/b/c") 47 (by decide)).1 3 (by decide),
    ((ventoy_str_last_spec (lit "abc") 47 (by decide)).2.1).2 (by decide)⟩

/-! ## Bounded matcher: claims -/

theorem strncmpRun_nil_left (t : CStr) (n : Nat) :
    strncmpRun [] t n = byteDiff 0 (peek t) := by
  cases t <;> rfl

theorem strncmpRun_nil_right (p : CStr) (n : Nat) :
    strncmpRun p [] n = byteDiff (peek p) 0 := by
  cases p <;> rfl

theorem strncmpRun_eq_strcmpRun (p t : CStr) :
    ∀ n, min p.length t.length < n → strncmpRun p t n = strcmpRun p t := by
  induction p generalizing t with
  | nil => intro n _; rw [strncmpRun_nil_left, strcmpRun_nil_left]
  | cons a ps ih =>
    intro n hn
    cases t with
    | nil => rw [strncmpRun_nil_right, strcmpRun_nil_right]
    | cons c cs =>
      have hlen : min ps.length cs.length + 1 < n := by
        simpa [Nat.succ_min_succ] using hn
      have hn1 : n - 1 ≠ 0 := by omega
      have hrec := ih cs (n - 1) (by omega)
      simp only [strncmpRun, strcmpRun, hn1, ne_eq, not_false_eq_true, and_true, hrec]

/-- C15: for every bound `n` strictly greater than the shorter of the two
lengths, `ventoy_strncmp` returns the same integer as `ventoy_strcmp`. -/
theorem ventoy_strncmp_eq_strcmp (p t : CStr) (n : Nat)
    (hn : min p.length t.length < n) :
    ventoy_strncmp (some p) (some t) n = ventoy_strcmp (some p) (some t) := by
  have hn0 : n ≠ 0 := by omega
  simp only [ventoy_strncmp, ventoy_strcmp, hn0, if_false]
  rw [strncmpRun_eq_strcmpRun p t n hn]

/-- Witness of C15: "ab" against "abc" with bound 3 gives -99, as unbounded. -/
theorem ventoy_strncmp_eq_strcmp_witness :
    ventoy_strncmp (some (lit "ab")) (some (lit "abc")) 3 = some (-99) :=
  (ventoy_strncmp_eq_strcmp (lit "ab") (lit "abc") 3 (by decide)).trans (by decide)

theorem strncmpRun_cons (a c : Nat) (ps cs : CStr) (n : Nat) (ha : a ≠ 0) (hc : c ≠ 0) :
    strncmpRun (a :: ps) (c :: cs) n =
      if n - 1 ≠ 0 then
        if a ≠ c ∧ a ≠ star then byteDiff a c else strncmpRun ps cs (n - 1)
      else byteDiff a c := by
  simp [strncmpRun, ha, hc]

/-- Agreement at the first `k + 1` positions of two strings, by head and tail. -/
theorem forall_lt_succ_getD_cons (P : Nat → Nat → Prop) (a c : Nat) (ps cs : CStr) (k : Nat) :
    (∀ i, i < k + 1 → P ((a :: ps).getD i 0) ((c :: cs).getD i 0)) ↔
      P a c ∧ ∀ i, i < k → P (ps.getD i 0) (cs.getD i 0) := by
  constructor
  · intro h
    refine ⟨by simpa using h 0 (by omega), fun i hi => ?_⟩
    simpa using h (i + 1) (by omega)
  · rintro ⟨h0, hs⟩ i hi
    cases i with
    | zero => simpa using h0
    | succ j => simpa using hs j (by omega)

theorem wildEq_of_not_mismatch {a c : Nat} (hm : ¬ (a ≠ c ∧ a ≠ star)) : wildEq a c := by
  unfold wildEq
  by_cases h1 : a = c
  · exact Or.inr h1
  · by_cases h2 : a = star
    · exact Or.inl h2
    · exact absurd ⟨h1, h2⟩ hm

theorem not_wildEq_of_mismatch {a c : Nat} (hm : a ≠ c ∧ a ≠ star) : ¬ wildEq a c := by
  rintro (h | h)
  · exact hm.2 h
  · exact hm.1 h

theorem strncmpRun_eq_zero_iff (p t : CStr) (hp : IsCStr p) (ht : IsCStr t) :
    ∀ m, strncmpRun p t (m + 1) = 0 ↔
      (p.length = t.length ∧ p.length ≤ m ∧
        ∀ i, i < p.length → wildEq (p.getD i 0) (t.getD i 0)) ∨
      (m + 1 ≤ p.length ∧ m + 1 ≤ t.length ∧
        (∀ i, i < m → wildEq (p.getD i 0) (t.getD i 0)) ∧ p.getD m 0 = t.getD m 0) := by
  induction p generalizing t with
  | nil =>
    intro m
    cases t with
    | nil => simp [strncmpRun, byteDiff, peek]
    | cons c cs =>
      have hc := ht.head
      rw [strncmpRun_nil_left, byteDiff_eq_zero_iff 0 _ (by decide) (by simpa [peek] using hc.2)]
      simp [peek]
      omega
  | cons a ps ih =>
    intro m
    have ha := hp.head
    cases t with
    | nil =>
      rw [strncmpRun_nil_right, byteDiff_eq_zero_iff _ 0 (by simpa [peek] using ha.2) (by decide)]
      simp [peek]
      omega
    | cons c cs =>
      have hc := ht.head
      rw [strncmpRun_cons a c ps cs (m + 1) (by omega) (by omega), forall_getD_cons]
      cases m with
      | zero =>
        simp only [Nat.zero_add, Nat.sub_self, ne_eq, not_true_eq_false, if_false]
        rw [byteDiff_eq_zero_iff a c ha.2 hc.2]
        simp
      | succ k =>
        have hk : k + 1 + 1 - 1 = k + 1 := by omega
        rw [hk, if_pos (by omega), forall_lt_succ_getD_cons]
        simp only [List.length_cons, List.getD_cons_succ]
        by_cases hm : a ≠ c ∧ a ≠ star
        · have hw := not_wildEq_of_mismatch hm
          rw [if_pos hm, byteDiff_eq_zero_iff a c ha.2 hc.2]
          constructor
          · intro h; exact absurd h hm.1
          · rintro (⟨-, -, h, -⟩ | ⟨-, -, ⟨h, -⟩, -⟩) <;> exact absurd h hw
        · have hw := wildEq_of_not_mismatch hm
          rw [if_neg hm, ih cs hp.tail ht.tail k]
          simp only [hw, true_and]
          constructor
          · rintro (⟨h1, h2, h3⟩ | ⟨h1, h2, h3, h4⟩)
            · exact Or.inl ⟨by omega, by omega, h3⟩
            · exact Or.inr ⟨by omega, by omega, h3, h4⟩
          · rintro (⟨h1, h2, h3⟩ | ⟨h1, h2, h3, h4⟩)
            · exact Or.inl ⟨by omega, by omega, h3⟩
            · exact Or.inr ⟨by omega, by omega, h3, h4⟩

/-- C14: on well-formed strings and a bound `n` of at least 1, `ventoy_strncmp`
returns 0 if and only if either both strings have the same length below `n`
and every position matches in the wildcard sense, or both have length at least
`n`, the first `n - 1` positions match in the wildcard sense and the bytes at
position `n - 1` are equal as ordinary bytes. -/
theorem ventoy_strncmp_zero_iff (p t : CStr) (n : Nat) (hp : IsCStr p) (ht : IsCStr t)
    (hn : 1 ≤ n) :
    ventoy_strncmp (some p) (some t) n = some 0 ↔
      (p.length = t.length ∧ p.length < n ∧
        ∀ i, i < p.length → (p.getD i 0 = star ∨ p.getD i 0 = t.getD i 0)) ∨
      (n ≤ p.length ∧ n ≤ t.length ∧
        (∀ i, i < n - 1 → (p.getD i 0 = star ∨ p.getD i 0 = t.getD i 0)) ∧
        p.getD (n - 1) 0 = t.getD (n - 1) 0) := by
  obtain ⟨m, rfl⟩ : ∃ m, n = m + 1 := ⟨n - 1, by omega⟩
  have key := strncmpRun_eq_zero_iff p t hp ht m
  have hiff : ventoy_strncmp (some p) (some t) (m + 1) = some 0 ↔
      strncmpRun p t (m + 1) = 0 := by
    simp [ventoy_strncmp]
  rw [hiff, key]
  simp only [wildEq, Nat.add_sub_cancel, Nat.lt_succ_iff]

/-- Witness of C14: with bound 3, "abcdef" against "abcxyz" gives 0 (both at
least 3 long, equal bytes at position 2), and "ab*" against "abc" does not
(the '*' at position 2 is compared as an ordinary byte). -/
theorem ventoy_strncmp_zero_iff_witness :
    ventoy_strncmp (some (lit "abcdef")) (some (lit "abcxyz")) 3 = some 0 ∧
      ventoy_strncmp (some (lit "ab*")) (some (lit "abc")) 3 ≠ some 0 :=
  ⟨(ventoy_strncmp_zero_iff (lit "abcdef") (lit "abcxyz") 3 (by decide) (by decide)
      (by decide)).2 (Or.inr (by decide)),
    fun h => absurd ((ventoy_strncmp_zero_iff (lit "ab*") (lit "abc") 3 (by decide) (by decide)
      (by decide)).1 h) (by decide)⟩

/-! ## Diagnostic output: claims -/

set_option maxRecDepth 100000 in
theorem fmtHex02_eq_hex2 : ∀ b, b < 256 → fmtHex02 b = hex2 b := by
  decide

theorem foldr_append_eq_flatten (g : Nat → CStr) (xs : List Nat) :
    xs.foldr (fun i out => g i ++ out) [] = (xs.map g).flatten := by
  induction xs with
  | nil => rfl
  | cons x xs ih => simp [ih]

theorem map_range_getD (f : Nat → CStr) (l : List Nat) :
    (List.range l.length).map (fun i => f (l.getD i 0)) = l.map f := by
  apply List.ext_getElem
  · simp
  · intro i h1 h2
    have hi : i < l.length := by simpa using h2
    simp [List.getElem?_eq_getElem hi]

/-- C13 (counterexample): with the flag set (and a macro that adds no text of
its own) the dump of sixteen zero bytes under the label "g:" has a space
between the last byte and the newline, so it is not the label, the bytes
separated by single spaces, and a newline. -/
theorem dump_guid_space_after_last_byte :
    ventoy_debug_dump_guid [] 1 (lit "g:") (List.replicate 16 0)
        = lit "g:00 00 00 00 00 00 00 00 00 00 00 00 00 00 00 00 \n" ∧
      spaceSeparatedDump (lit "g:") (List.replicate 16 0)
        = lit "g:00 00 00 00 00 00 00 00 00 00 00 00 00 00 00 00\n" ∧
      ventoy_debug_dump_guid [] 1 (lit "g:") (List.replicate 16 0)
        ≠ spaceSeparatedDump (lit "g:") (List.replicate 16 0) := by
  decide

/-- C13 (amended): for every label and every 16-byte identifier,
`ventoy_debug_dump_guid` emits nothing when the debug flag is clear, and when
it is set emits the label (after the fixed text of the `debug` macro, if any),
then the 16 bytes in order, each as exactly two lowercase hexadecimal digits
followed by a single space, then a newline. -/
theorem ventoy_debug_dump_guid_text (tag pfx guid : CStr) (flag : Int) (hp : IsCStr pfx)
    (hlen : guid.length = 16) (hb : ∀ b ∈ guid, b < 256) :
    ventoy_debug_dump_guid tag 0 pfx guid = [] ∧
    (flag ≠ 0 → ventoy_debug_dump_guid tag flag pfx guid
      = tag ++ pfx ++ (guid.map (fun b => hex2 b ++ [32])).flatten ++ [10]) := by
  refine ⟨by simp [ventoy_debug_dump_guid], fun hflag => ?_⟩
  have hs : fmtStr pfx = pfx := fmtStr_of_no_nul pfx (fun c hc => by have := hp c hc; omega)
  have hmap : guid.map (fun b => fmtHex02 (b % 256) ++ lit " ")
      = guid.map (fun b => hex2 b ++ [32]) := by
    apply List.map_congr_left
    intro b hmem
    have hlt := hb b hmem
    rw [Nat.mod_eq_of_lt hlt, fmtHex02_eq_hex2 b hlt]
    rfl
  have hloop : (List.range 16).foldr
      (fun i out => (fmtHex02 (guid.getD i 0 % 256) ++ lit " ") ++ out) []
      = (guid.map (fun b => hex2 b ++ [32])).flatten := by
    rw [foldr_append_eq_flatten (fun i => fmtHex02 (guid.getD i 0 % 256) ++ lit " "),
      ← hlen, map_range_getD (fun b => fmtHex02 (b % 256) ++ lit " ") guid, hmap]
  simp only [ventoy_debug_dump_guid, hflag, if_false, debug, hs, hloop]

/-- Witness of C13 (amended): the bytes 0..15 under the label "g:", with the
flag set and no text added by the macro. -/
theorem ventoy_debug_dump_guid_text_witness :
    ventoy_debug_dump_guid [] 1 (lit "g:") (List.range 16)
      = lit "g:00 01 02 03 04 05 06 07 08 09 0a 0b 0c 0d 0e 0f \n" :=
  ((ventoy_debug_dump_guid_text [] (lit "g:") (List.range 16) 1 (by decide) (by decide)
    (by decide)).2 (by decide)).trans (by decide)

end Ventoy
